import Mathlib

/-!
Verification development for the mailhubrelay repository.

The repository is a small Go mail relay: a TCP server (mhrs) that decodes one
JSON EmailRequest per connection and delivers it over SMTP with bounded
retries, a sendmail-compatible CLI (mhrc), an HTTP form adapter (submitf),
and a shared configuration package (internal/config).

Pure data and control flow of the source are embedded as Lean definitions.
External effects (filesystem, TOML parsing, the logger package, the SMTP
network call, the cancellation context) are abstracted as explicit inputs:
a record of effect outcomes for configuration loading, and boolean oracles
for per-attempt transport success and for whether the cancellation context
fires before the retry-delay timer during an inter-attempt wait.
-/

namespace MailHubRelay

/-- SMTP section of the configuration (internal/config/config.go, SMTPConfig). -/
structure SMTPConfig where
  Host : String
  Port : String
  FromAddr : String
  AuthUser : String
  AuthPass : String
deriving DecidableEq

/-- Server section of the configuration (internal/config/config.go,
ServerConfig). Go time.Duration values are int64 nanosecond counts,
modelled as Int; MaxRetries is a Go int, modelled as Int. -/
structure ServerConfig where
  InternalAddr : String
  ExternalAddr : String
  Timeout : Int
  RetryDelay : Int
  MaxRetries : Int
  AllowedOrigins : List String
deriving DecidableEq

/-- Logging section: the external logger package's Config value as embedded
in the repository's Config (the fields set and read by config.go). -/
structure LoggingConfig where
  Level : Int
  Name : String
  Directory : String
  BufferSize : Int
  MaxSizeMB : Int
  MaxTotalSizeMB : Int
  MinDiskFreeMB : Int
deriving DecidableEq

/-- The whole configuration value (internal/config/config.go, Config). -/
structure Config where
  SMTP : SMTPConfig
  Server : ServerConfig
  Logging : LoggingConfig
deriving DecidableEq

/-- One nanosecond-denominated second, matching Go's time.Second. -/
def timeSecond : Int := 1000000000

/-- Go's time.Minute in nanoseconds. -/
def timeMinute : Int := 60 * timeSecond

/-- Debug level constant of the external logger package (logger.LevelDebug);
its numeric value is never branched on by the repository's code. -/
def LevelDebug : Int := -4

/-- The built-in defaults (internal/config/config.go, defaultConfig). -/
def defaultConfig : Config :=
  { SMTP :=
      { Host := "smtp.gmail.com"
        Port := "587"
        FromAddr := "user@example.com"
        AuthUser := "user@example.com"
        AuthPass := "0123456789AB" }
    Server :=
      { InternalAddr := "localhost:2525"
        ExternalAddr := "localhost:8845"
        Timeout := 3 * timeMinute
        RetryDelay := 10 * timeSecond
        MaxRetries := 3
        AllowedOrigins := ["https://example.com", "http://example.com"] }
    Logging :=
      { Level := LevelDebug
        Name := ""
        Directory := "/var/log"
        BufferSize := 1000
        MaxSizeMB := 100
        MaxTotalSizeMB := 1000
        MinDiskFreeMB := 500 } }

/-- validateConfig (internal/config/config.go): returns the error message
produced, or none when the configuration is accepted. -/
def validateConfig (c : Config) : Option String :=
  if c.SMTP.Host = "" ∨ c.SMTP.Port = "" ∨ c.SMTP.FromAddr = "" ∨
      c.SMTP.AuthUser = "" ∨ c.SMTP.AuthPass = "" then
    some "missing required SMTP configuration"
  else if c.Server.InternalAddr = "" ∨ c.Server.Timeout ≤ 0 ∨
      c.Server.RetryDelay ≤ 0 ∨ c.Server.MaxRetries ≤ 0 then
    some "invalid internal server configuration"
  else if c.Logging.Directory = "" ∨ c.Logging.BufferSize ≤ 0 then
    some "invalid logging configuration"
  else
    none

/-- Outcomes of the external effects performed by config.Load: whether
creating the configuration directory succeeds, whether the configuration
file exists, whether reading it succeeds, and the result of merging the
file's TOML contents over the defaults (none models a parse error; the
merged value is abstract because the file bytes are). -/
structure LoadEnv where
  mkdirOk : Bool
  fileExists : Bool
  readOk : Bool
  parsed : Option Config
deriving DecidableEq

/-- filepath.Join as used by config.Load on its two-component paths. -/
def filepathJoin (a b : String) : String := a ++ "/" ++ b

/-- The defaults after Load sets Logging.Name and Logging.Directory for the
application name, before any file contents are merged. -/
def defaultsFor (name : String) : Config :=
  { defaultConfig with
      Logging :=
        { defaultConfig.Logging with
            Name := name
            Directory := filepathJoin defaultConfig.Logging.Directory name } }

/-- config.Load (internal/config/config.go): on success returns the loaded
configuration together with the configExists flag; every failure path
(mkdir, read, parse, validation) is an error. -/
def Load (name : String) (env : LoadEnv) : Except String (Config × Bool) :=
  if env.mkdirOk = false then
    .error "failed to create config directory"
  else if env.fileExists then
    if env.readOk = false then
      .error "failed to read config file"
    else
      match env.parsed with
      | none => .error "failed to parse config file"
      | some config =>
        match validateConfig config with
        | some e => .error e
        | none => .ok (config, true)
  else
    match validateConfig (defaultsFor name) with
    | some e => .error e
    | none => .ok (defaultsFor name, false)

/-- The relay server's application name (const appName = "mhrs"). -/
def appName : String := "mhrs"

/-- reloadConfig (cmd main file, mhrs): returns the active configuration
after the reload together with its result. The new configuration is
assigned over the old one only on the final success path; loggerInitOk is
the outcome of reinitializing the external logging sink. -/
def reloadConfig (env : LoadEnv) (loggerInitOk : Bool) (cfg : Config) :
    Config × Except String Unit :=
  match Load appName env with
  | .error e => (cfg, .error ("failed to load new configuration: " ++ e))
  | .ok (newConfig, configExists) =>
    if configExists = false then
      (cfg, .error "configuration file not found")
    else if loggerInitOk = false then
      (cfg, .error "failed to reinitialize logger")
    else
      (newConfig, .ok ())

/-- The three signals handleSignals multiplexes over. -/
inductive Sig
  | sighup
  | sigint
  | sigterm
deriving DecidableEq

/-- One iteration of handleSignals (mhrs): SIGHUP runs reloadConfig and on
failure only logs, keeping the loop running with the resulting active
configuration; SIGINT and SIGTERM cancel and stop the loop. Returns the
active configuration afterwards and whether the server keeps running. -/
def handleSignal (sig : Sig) (env : LoadEnv) (loggerInitOk : Bool)
    (cfg : Config) : Config × Bool :=
  match sig with
  | .sighup => ((reloadConfig env loggerInitOk cfg).1, true)
  | .sigint => (cfg, false)
  | .sigterm => (cfg, false)

/-- How the mhrs process startup ends: terminated with an exit status, or
running the accept loop with the loaded configuration. -/
inductive StartupOutcome
  | exited (code : Nat)
  | running (cfg : Config)
deriving DecidableEq

/-- Startup sequence of main (mhrs): configuration load failure and logging
initialization failure call os.Exit(1); a listener bind failure logs the
error and returns from main, which terminates the process with status 0.
The config.Save call for a missing file is effect-only and does not alter
control flow. -/
def mainStartup (env : LoadEnv) (loggerInitOk bindOk : Bool) :
    StartupOutcome :=
  match Load appName env with
  | .error _ => .exited 1
  | .ok (cfg, _) =>
    if loggerInitOk = false then .exited 1
    else if bindOk = false then .exited 0
    else .running cfg

/-- An incoming email sending request (EmailRequest in mhrs; the body is a
byte sequence, each byte a Nat below 256). -/
structure EmailRequest where
  Recipient : String
  Subject : String
  Body : List Nat
deriving DecidableEq

/-- The transport message processEmail builds from a request and the
configured sender (the external email.Email value, fields the code sets). -/
structure EmailMsg where
  To : List String
  FromAddr : String
  Subject : String
  Text : List Nat
deriving DecidableEq

/-- Construction of the transport message at the top of processEmail. -/
def buildEmail (req : EmailRequest) (cfg : Config) : EmailMsg :=
  { To := [req.Recipient]
    FromAddr := cfg.SMTP.FromAddr
    Subject := req.Subject
    Text := req.Body }

/-- Observable steps of one processEmail invocation: a transport invocation
for attempt i with its outcome, a completed full wait of d nanoseconds
after failed attempt i, or the cancellation context observed during the
wait after failed attempt i. -/
inductive DeliverEvent
  | attempt (i : Int) (ok : Bool)
  | wait (i : Int) (d : Int)
  | cancelled (i : Int)
deriving DecidableEq

/-- The retry loop of processEmail (mhrs), as the list of events it
performs. send i is the outcome of the SMTP transport call at attempt
index i (true = success); cancel i tells whether, during the wait after
failed attempt i, the cancellation context fires before the RetryDelay
timer. The loop runs attempt = 0,1,... while attempt < maxRetries: a
successful send returns immediately; a failed send waits only when
attempt < maxRetries - 1, and a cancellation observed during that wait
returns; a failure on the final allowed attempt falls out of the loop. -/
def deliverEvents (send cancel : Int → Bool) (retryDelay maxRetries attempt : Int) :
    List DeliverEvent :=
  if attempt < maxRetries then
    if send attempt then
      [.attempt attempt true]
    else if h : attempt < maxRetries - 1 then
      if cancel attempt then
        [.attempt attempt false, .cancelled attempt]
      else
        .attempt attempt false :: .wait attempt retryDelay ::
          deliverEvents send cancel retryDelay maxRetries (attempt + 1)
    else
      [.attempt attempt false]
  else
    []
termination_by (maxRetries - attempt).toNat
decreasing_by simp_wf; omega

/-- processEmail (mhrs): builds the transport message and runs the retry
loop with the configuration's RetryDelay and MaxRetries, starting at
attempt index 0. -/
def processEmail (send cancel : Int → Bool) (req : EmailRequest) (cfg : Config) :
    EmailMsg × List DeliverEvent :=
  (buildEmail req cfg,
    deliverEvents send cancel cfg.Server.RetryDelay cfg.Server.MaxRetries 0)

/-- The transport invocations of an event trace, in order, with outcomes. -/
def attemptsOf (tr : List DeliverEvent) : List (Int × Bool) :=
  tr.filterMap fun e =>
    match e with
    | .attempt i ok => some (i, ok)
    | _ => none

/-- The attempt index an event belongs to. -/
def eventIdx : DeliverEvent → Int
  | .attempt i _ => i
  | .wait i _ => i
  | .cancelled i => i

/-- Externally visible outcome of handleConnection (mhrs) on one accepted
connection: whether the connection ends closed, how many bytes the handler
wrote back to the caller, how many SMTP transport invocations happened,
and whether a decode error was logged. -/
structure ConnOutcome where
  closed : Bool
  bytesWritten : Nat
  transportCalls : Nat
  decodeErrorLogged : Bool
deriving DecidableEq

/-- handleConnection (mhrs): decoding happens first (decoded = none models
a stream that does not decode into an EmailRequest); on decode failure the
error is logged and the handler returns; otherwise processEmail runs to
completion inside the handler. The connection close is deferred, so it
happens on every exit path; no path writes any byte to the connection. -/
def handleConnection (decoded : Option EmailRequest) (send cancel : Int → Bool)
    (cfg : Config) : ConnOutcome :=
  match decoded with
  | none =>
    { closed := true, bytesWritten := 0, transportCalls := 0
      decodeErrorLogged := true }
  | some req =>
    { closed := true, bytesWritten := 0
      transportCalls := (attemptsOf (processEmail send cancel req cfg).2).length
      decodeErrorLogged := false }

/-- The processEmail retry loop with the configuration pointer dereference
made explicit: processEmail receives the same *config.Config pointer that
reloadConfig writes through (*cfg = *newConfig), and it re-reads
cfg.Server.MaxRetries at every loop test and cfg.Server.RetryDelay at
every wait. shared t is the value in the shared cell when the loop body
runs its t-th iteration (a completed reload between iterations changes
it). Returns the configuration values the delivery observed, one per
iteration. Fuel bounds the unfolding; reloads are finitely many, so a
large enough fuel reproduces any real execution. -/
def deliverSharedObs (send cancel : Int → Bool) (shared : Nat → Config) :
    Nat → Int → Nat → List Config
  | 0, _, _ => []
  | fuel + 1, attempt, t =>
    let c := shared t
    if attempt < c.Server.MaxRetries then
      if send attempt then
        [c]
      else if attempt < c.Server.MaxRetries - 1 then
        if cancel attempt then [c]
        else c :: deliverSharedObs send cancel shared fuel (attempt + 1) (t + 1)
      else
        [c]
    else
      []

/-- A second configuration differing from the defaults only in RetryDelay,
standing for a reloaded configuration. -/
def reloadedConfig : Config :=
  { defaultConfig with
      Server := { defaultConfig.Server with RetryDelay := 20 * timeSecond } }

/-- Shared-cell history in which a reload completes between the delivery's
first and second loop iterations. -/
def sharedAfterReload : Nat → Config :=
  fun t => if t = 0 then defaultConfig else reloadedConfig

/-- Lowercase hexadecimal digit, as encoding/json uses in escape sequences. -/
def hexDigit (n : Nat) : Char :=
  if n < 10 then Char.ofNat (48 + n) else Char.ofNat (87 + n)

/-- Escaping of one character in a JSON string, modelling Go encoding/json
with its default HTML escaping: quote, backslash, newline, carriage
return, tab get two-character escapes; the HTML characters and remaining
control characters get unicode escapes; everything else passes through. -/
def escapeChar (c : Char) : List Char :=
  if c = '"' then ['\\', '"']
  else if c = '\\' then ['\\', '\\']
  else if c = '\n' then ['\\', 'n']
  else if c = '\r' then ['\\', 'r']
  else if c = '\t' then ['\\', 't']
  else if c = '<' then ['\\', 'u', '0', '0', '3', 'c']
  else if c = '>' then ['\\', 'u', '0', '0', '3', 'e']
  else if c = '&' then ['\\', 'u', '0', '0', '2', '6']
  else if c.toNat < 32 then
    ['\\', 'u', '0', '0', hexDigit (c.toNat / 16), hexDigit (c.toNat % 16)]
  else [c]

/-- A JSON string literal for s: quote, escaped characters, quote. -/
def encodeJSONString (s : String) : List Char :=
  '"' :: (s.data.flatMap escapeChar ++ ['"'])

/-- Character of the standard base64 alphabet at index n (n < 64). -/
def base64Char (n : Nat) : Char :=
  if n < 26 then Char.ofNat (65 + n)
  else if n < 52 then Char.ofNat (97 + (n - 26))
  else if n < 62 then Char.ofNat (48 + (n - 52))
  else if n = 62 then '+'
  else '/'

/-- Standard base64 encoding with padding of a byte sequence, as
encoding/json applies to a Go byte-slice field. -/
def base64Chars : List Nat → List Char
  | [] => []
  | [b1] =>
    [base64Char (b1 % 256 / 4), base64Char (b1 % 256 % 4 * 16), '=', '=']
  | [b1, b2] =>
    [base64Char (b1 % 256 / 4),
      base64Char (b1 % 256 % 4 * 16 + b2 % 256 / 16),
      base64Char (b2 % 256 % 16 * 4), '=']
  | b1 :: b2 :: b3 :: rest =>
    base64Char (b1 % 256 / 4) ::
      base64Char (b1 % 256 % 4 * 16 + b2 % 256 / 16) ::
      base64Char (b2 % 256 % 16 * 4 + b3 % 256 / 64) ::
      base64Char (b3 % 256 % 64) :: base64Chars rest

/-- json.Marshal of an EmailRequest, field order as declared in the struct:
recipient and subject as JSON strings, body as a base64 JSON string. The
output is one compact JSON object with no trailing newline. -/
def encodeEmailRequestChars (r : EmailRequest) : List Char :=
  Char.ofNat 123 :: ("\"recipient\":".data ++ encodeJSONString r.Recipient
    ++ ",\"subject\":".data ++ encodeJSONString r.Subject
    ++ ",\"body\":\"".data ++ base64Chars r.Body
    ++ ['"', Char.ofNat 125])

/-- sendToMHRS in cmd/mhrc/main.go: marshals the request, appends a single
newline byte, and writes the result to the connection. These are the
bytes written. -/
def mhrcSendToMHRSBytes (req : EmailRequest) : List Char :=
  encodeEmailRequestChars req ++ ['\n']

/-- A contact form submission (FormData in cmd/submitf/main.go). -/
structure FormData where
  Name : String
  Email : String
  Message : String
deriving DecidableEq

/-- formatEmailBody (cmd/submitf/main.go). -/
def formatEmailBody (form : FormData) : String :=
  "New contact form submission:\n\n" ++
    "Name: " ++ form.Name ++ "\n" ++
    "Email: " ++ form.Email ++ "\n\n" ++
    "Message:\n" ++ form.Message

/-- String bytes as Nat values; the concrete inputs used here are ASCII, on
which this agrees with Go's UTF-8 byte view of the string. -/
def strBytes (s : String) : List Nat := s.data.map Char.toNat

/-- The EmailRequest sendToMHRS in cmd/submitf/main.go builds from a
validated form: recipient is the configured sender address, subject names
the submitter, the body is the formatted form text. -/
def submitfRequest (form : FormData) (cfg : Config) : EmailRequest :=
  { Recipient := cfg.SMTP.FromAddr
    Subject := "Contact Form Submission from " ++ form.Name
    Body := strBytes (formatEmailBody form) }

/-- sendToMHRS in cmd/submitf/main.go: marshals the request and writes the
JSON bytes to the connection as they are, with no newline appended. -/
def submitfSendToMHRSBytes (req : EmailRequest) : List Char :=
  encodeEmailRequestChars req

/-- Concrete form submission used as a test input. -/
def form0 : FormData :=
  { Name := "Alice", Email := "alice@example.org", Message := "Hi there" }

/-- Effect environment with a writable config directory, no configuration
file on disk, and no read or parse outcome needed. -/
def env0 : LoadEnv :=
  { mkdirOk := true, fileExists := false, readOk := true, parsed := none }

theorem deliverEvents_head (send cancel : Int → Bool) (d N a : Int) (h : a < N) :
    ∃ rest, deliverEvents send cancel d N a =
      DeliverEvent.attempt a (send a) :: rest := by
  rw [deliverEvents]
  cases hs : send a with
  | true => exact ⟨[], by simp [h]⟩
  | false =>
    by_cases h2 : a < N - 1
    · cases hc : cancel a with
      | true => exact ⟨[.cancelled a], by simp [h, h2, hc]⟩
      | false =>
        exact ⟨.wait a d :: deliverEvents send cancel d N (a + 1),
          by simp [h, h2, hc]⟩
    · exact ⟨[], by simp [h, h2]⟩

theorem mem_deliverEvents_idx_ge (send cancel : Int → Bool) (d N a : Int) :
    ∀ e ∈ deliverEvents send cancel d N a, a ≤ eventIdx e := by
  induction a using deliverEvents.induct send cancel d N with
  | case1 a h hs =>
    intro e he
    rw [deliverEvents] at he
    simp [h, hs] at he
    subst he; simp [eventIdx]
  | case2 a h hs h2 hc =>
    intro e he
    rw [deliverEvents] at he
    simp [h, hs, h2, hc] at he
    rcases he with he | he <;> (subst he; simp [eventIdx])
  | case3 a h hs h2 hc ih =>
    intro e he
    rw [deliverEvents] at he
    simp [h, hs, h2, hc] at he
    rcases he with he | he | he
    · subst he; simp [eventIdx]
    · subst he; simp [eventIdx]
    · have := ih e he; omega
  | case4 a h hs h2 =>
    intro e he
    rw [deliverEvents] at he
    simp [h, hs, h2] at he
    subst he; simp [eventIdx]
  | case5 a h =>
    intro e he
    rw [deliverEvents] at he
    simp [h] at he

theorem mem_deliverEvents_attempt_ok (send cancel : Int → Bool) (d N a : Int) :
    ∀ i ok, DeliverEvent.attempt i ok ∈ deliverEvents send cancel d N a →
      ok = send i := by
  induction a using deliverEvents.induct send cancel d N with
  | case1 a h hs =>
    intro i ok he
    rw [deliverEvents] at he
    simp [h, hs] at he
    obtain ⟨hi, hok⟩ := he
    subst hi; subst hok; exact hs.symm
  | case2 a h hs h2 hc =>
    intro i ok he
    rw [deliverEvents] at he
    simp [h, hs, h2, hc] at he
    obtain ⟨hi, hok⟩ := he
    subst hi; subst hok
    simp [Bool.not_eq_true] at hs
    exact hs.symm
  | case3 a h hs h2 hc ih =>
    intro i ok he
    rw [deliverEvents] at he
    simp [h, hs, h2, hc] at he
    rcases he with ⟨hi, hok⟩ | he
    · subst hi; subst hok
      simp [Bool.not_eq_true] at hs
      exact hs.symm
    · exact ih i ok he
  | case4 a h hs h2 =>
    intro i ok he
    rw [deliverEvents] at he
    simp [h, hs, h2] at he
    obtain ⟨hi, hok⟩ := he
    subst hi; subst hok
    simp [Bool.not_eq_true] at hs
    exact hs.symm
  | case5 a h =>
    intro i ok he
    rw [deliverEvents] at he
    simp [h] at he

theorem mem_deliverEvents_cancelled_last (send cancel : Int → Bool) (d N a : Int) :
    ∀ k, DeliverEvent.cancelled k ∈ deliverEvents send cancel d N a →
      (deliverEvents send cancel d N a).getLast? =
        some (DeliverEvent.cancelled k) := by
  induction a using deliverEvents.induct send cancel d N with
  | case1 a h hs =>
    intro k he
    rw [deliverEvents] at he
    simp [h, hs] at he
  | case2 a h hs h2 hc =>
    intro k he
    rw [deliverEvents] at he
    simp [h, hs, h2, hc] at he
    subst he
    rw [deliverEvents]
    simp [h, hs, h2, hc]
  | case3 a h hs h2 hc ih =>
    intro k he
    rw [deliverEvents] at he
    simp [h, hs, h2, hc] at he
    have hlast := ih k he
    have hne : deliverEvents send cancel d N (a + 1) ≠ [] := by
      intro hempty; rw [hempty] at he; simp at he
    obtain ⟨x, xs, hx⟩ := List.exists_cons_of_ne_nil hne
    rw [deliverEvents]
    simp only [h, if_true, hs, Bool.false_eq_true, if_false, h2, dif_pos,
      hc, List.getLast?_cons_cons]
    rw [hx] at hlast ⊢
    rw [List.getLast?_cons_cons]
    exact hlast
  | case4 a h hs h2 =>
    intro k he
    rw [deliverEvents] at he
    simp [h, hs, h2] at he
  | case5 a h =>
    intro k he
    rw [deliverEvents] at he
    simp [h] at he



theorem mem_deliverEvents_cancelled_attempt_le (send cancel : Int → Bool) (d N a : Int) :
    ∀ k j ok, DeliverEvent.cancelled k ∈ deliverEvents send cancel d N a →
      DeliverEvent.attempt j ok ∈ deliverEvents send cancel d N a → j ≤ k := by
  induction a using deliverEvents.induct send cancel d N with
  | case1 a h hs =>
    intro k j ok hc' ha'
    rw [deliverEvents] at hc'
    simp [h, hs] at hc'
  | case2 a h hs h2 hc =>
    intro k j ok hc' ha'
    rw [deliverEvents] at hc' ha'
    simp [h, hs, h2, hc] at hc' ha'
    omega
  | case3 a h hs h2 hc ih =>
    intro k j ok hc' ha'
    rw [deliverEvents] at hc' ha'
    simp [h, hs, h2, hc] at hc' ha'
    have hk : a + 1 ≤ k := by
      have := mem_deliverEvents_idx_ge send cancel d N (a + 1)
        (DeliverEvent.cancelled k) hc'
      simpa [eventIdx] using this
    rcases ha' with ⟨hj, _⟩ | ha'
    · omega
    · exact ih k j ok hc' ha'
  | case4 a h hs h2 =>
    intro k j ok hc' ha'
    rw [deliverEvents] at hc'
    simp [h, hs, h2] at hc'
  | case5 a h =>
    intro k j ok hc' ha'
    rw [deliverEvents] at hc'
    simp [h] at hc'

theorem deliverEvents_attempt_succ_adjacent (send cancel : Int → Bool) (d N a : Int) :
    ∀ k ok, a ≤ k → DeliverEvent.attempt (k + 1) ok ∈ deliverEvents send cancel d N a →
      ∃ pre suf, deliverEvents send cancel d N a =
        pre ++ DeliverEvent.attempt k false :: DeliverEvent.wait k d ::
          DeliverEvent.attempt (k + 1) ok :: suf := by
  induction a using deliverEvents.induct send cancel d N with
  | case1 a h hs =>
    intro k ok hak he
    rw [deliverEvents] at he
    simp [h, hs] at he
    omega
  | case2 a h hs h2 hc =>
    intro k ok hak he
    rw [deliverEvents] at he
    simp [h, hs, h2, hc] at he
    omega
  | case3 a h hs h2 hc ih =>
    intro k ok hak he
    rw [deliverEvents] at he
    simp [h, hs, h2, hc] at he
    rcases he with ⟨hk, _⟩ | he
    · omega
    · by_cases hka : k = a
      · subst hka
        have hok := mem_deliverEvents_attempt_ok send cancel d N (k + 1)
          (k + 1) ok he
        have hlt : k + 1 < N := by omega
        obtain ⟨rest, hr⟩ := deliverEvents_head send cancel d N (k + 1) hlt
        refine ⟨[], rest, ?_⟩
        rw [deliverEvents]
        simp only [h, if_true, hs, Bool.false_eq_true, if_false, h2, dif_pos, hc]
        rw [hr, hok]
        simp
      · have hk1 : a + 1 ≤ k := by
          have := mem_deliverEvents_idx_ge send cancel d N (a + 1)
            (DeliverEvent.attempt (k + 1) ok) he
          simp [eventIdx] at this
          omega
        obtain ⟨pre, suf, hps⟩ := ih k ok hk1 he
        refine ⟨DeliverEvent.attempt a false :: DeliverEvent.wait a d :: pre,
          suf, ?_⟩
        rw [deliverEvents]
        simp only [h, if_true, hs, Bool.false_eq_true, if_false, h2, dif_pos, hc]
        rw [hps]
        simp
  | case4 a h hs h2 =>
    intro k ok hak he
    rw [deliverEvents] at he
    simp [h, hs, h2] at he
    omega
  | case5 a h =>
    intro k ok hak he
    rw [deliverEvents] at he
    simp [h] at he



theorem attemptsOf_nil : attemptsOf [] = [] := rfl

theorem attemptsOf_cons_attempt (i : Int) (ok : Bool) (tr : List DeliverEvent) :
    attemptsOf (DeliverEvent.attempt i ok :: tr) = (i, ok) :: attemptsOf tr := rfl

theorem attemptsOf_cons_wait (i d : Int) (tr : List DeliverEvent) :
    attemptsOf (DeliverEvent.wait i d :: tr) = attemptsOf tr := rfl

theorem attemptsOf_cons_cancelled (i : Int) (tr : List DeliverEvent) :
    attemptsOf (DeliverEvent.cancelled i :: tr) = attemptsOf tr := rfl

theorem attemptsOf_deliverEvents_shape (send cancel : Int → Bool) (d N a : Int) :
    ∃ m : Nat,
      attemptsOf (deliverEvents send cancel d N a) =
        (List.range m).map (fun (j : Nat) => (a + (j : Int), send (a + (j : Int))))
      ∧ m ≤ (N - a).toNat
      ∧ (∀ j : Nat, j + 1 < m → send (a + (j : Int)) = false) := by
  induction a using deliverEvents.induct send cancel d N with
  | case1 a h hs =>
    refine ⟨1, ?_, by omega, by omega⟩
    rw [deliverEvents]
    simp [h, hs, attemptsOf_cons_attempt, attemptsOf_nil, List.range_succ]
  | case2 a h hs h2 hc =>
    have hs' : send a = false := by simpa using hs
    refine ⟨1, ?_, by omega, by omega⟩
    rw [deliverEvents]
    simp [h, hs, h2, hc, attemptsOf_cons_attempt, attemptsOf_cons_cancelled,
      attemptsOf_nil, List.range_succ, hs']
  | case3 a h hs h2 hc ih =>
    have hs' : send a = false := by simpa using hs
    obtain ⟨m, hshape, hm, hfalse⟩ := ih
    refine ⟨m + 1, ?_, by omega, ?_⟩
    · rw [deliverEvents]
      simp only [h, if_true, hs, Bool.false_eq_true, if_false, h2, dif_pos, hc,
        attemptsOf_cons_attempt, attemptsOf_cons_wait]
      rw [hshape, List.range_succ_eq_map, List.map_cons, List.map_map]
      have hf : ((fun (j : Nat) => (a + (j : Int), send (a + (j : Int)))) ∘ Nat.succ)
          = fun (j : Nat) => (a + 1 + (j : Int), send (a + 1 + (j : Int))) := by
        funext j
        simp only [Function.comp_apply]
        have hj : a + ((Nat.succ j : Nat) : Int) = a + 1 + (j : Int) := by
          push_cast; ring
        rw [hj]
      rw [hf]
      simp [hs']
    · intro j hj
      rcases Nat.eq_zero_or_pos j with hj0 | hjpos
      · subst hj0
        simpa using hs'
      · obtain ⟨j', rfl⟩ := Nat.exists_eq_add_of_lt hjpos
        have hj' : j' + 1 < m := by omega
        have hv := hfalse j' hj'
        have hcast : a + ((0 + j' + 1 : Nat) : Int) = a + 1 + (j' : Int) := by
          push_cast; ring
        rw [hcast]
        exact hv
  | case4 a h hs h2 =>
    have hs' : send a = false := by simpa using hs
    refine ⟨1, ?_, by omega, by omega⟩
    rw [deliverEvents]
    simp [h, hs, h2, attemptsOf_cons_attempt, attemptsOf_nil, List.range_succ, hs']
  | case5 a h =>
    exact ⟨0, by rw [deliverEvents]; simp [h, attemptsOf_nil], by omega, by omega⟩

theorem Load_ok_validated (name : String) (env : LoadEnv) (c : Config) (ex : Bool)
    (h : Load name env = .ok (c, ex)) : validateConfig c = none := by
  unfold Load at h
  split at h
  · exact absurd h (by simp)
  · split at h
    · split at h
      · exact absurd h (by simp)
      · split at h
        · exact absurd h (by simp)
        · split at h
          · exact absurd h (by simp)
          · next config hv =>
            injection h with h2
            injection h2 with h3 h4
            rw [← h3]
            assumption
    · split at h
      · exact absurd h (by simp)
      · next hv =>
        injection h with h2
        injection h2 with h3 h4
        rw [← h3]
        assumption

theorem reloadConfig_load_error (env : LoadEnv) (lok : Bool) (cfg : Config)
    (e : String) (h : Load appName env = .error e) :
    reloadConfig env lok cfg =
      (cfg, .error ("failed to load new configuration: " ++ e)) := by
  unfold reloadConfig; rw [h]

theorem reloadConfig_not_exists (env : LoadEnv) (lok : Bool) (cfg nc : Config)
    (h : Load appName env = .ok (nc, false)) :
    reloadConfig env lok cfg = (cfg, .error "configuration file not found") := by
  unfold reloadConfig
  rw [h]
  rfl

theorem reloadConfig_logger_fail (env : LoadEnv) (cfg nc : Config)
    (h : Load appName env = .ok (nc, true)) :
    reloadConfig env false cfg =
      (cfg, .error "failed to reinitialize logger") := by
  unfold reloadConfig
  rw [h]
  rfl

theorem reloadConfig_success (env : LoadEnv) (cfg nc : Config)
    (h : Load appName env = .ok (nc, true)) :
    reloadConfig env true cfg = (nc, .ok ()) := by
  unfold reloadConfig
  rw [h]
  rfl

theorem Load_no_file (name : String) (env : LoadEnv)
    (hm : env.mkdirOk = true) (hf : env.fileExists = false)
    (hv : validateConfig (defaultsFor name) = none) :
    Load name env = .ok (defaultsFor name, false) := by
  unfold Load
  rw [hm, hf, hv]
  rfl

theorem base64Char_ne_newline : ∀ n : Nat, n < 64 → base64Char n ≠ '\n' := by
  decide

theorem hexDigit_ne_newline : ∀ n : Nat, n < 16 → hexDigit n ≠ '\n' := by
  decide

theorem newline_not_mem_base64Chars (bs : List Nat) :
    '\n' ∉ base64Chars bs := by
  induction bs using base64Chars.induct with
  | case1 => simp [base64Chars]
  | case2 b1 =>
    simp only [base64Chars, List.mem_cons, List.not_mem_nil, or_false]
    push_neg
    refine ⟨?_, ?_, by decide, by decide⟩
    · exact fun h => base64Char_ne_newline _ (by omega) h.symm
    · exact fun h => base64Char_ne_newline _ (by omega) h.symm
  | case3 b1 b2 =>
    simp only [base64Chars, List.mem_cons, List.not_mem_nil, or_false]
    push_neg
    refine ⟨?_, ?_, ?_, by decide⟩
    · exact fun h => base64Char_ne_newline _ (by omega) h.symm
    · exact fun h => base64Char_ne_newline _ (by omega) h.symm
    · exact fun h => base64Char_ne_newline _ (by omega) h.symm
  | case4 b1 b2 b3 rest ih =>
    simp only [base64Chars, List.mem_cons]
    push_neg
    refine ⟨?_, ?_, ?_, ?_, ih⟩
    · exact fun h => base64Char_ne_newline _ (by omega) h.symm
    · exact fun h => base64Char_ne_newline _ (by omega) h.symm
    · exact fun h => base64Char_ne_newline _ (by omega) h.symm
    · exact fun h => base64Char_ne_newline _ (by omega) h.symm

theorem newline_not_mem_escapeChar (c : Char) : '\n' ∉ escapeChar c := by
  unfold escapeChar
  split
  · decide
  · split
    · decide
    · split
      · next hc =>
        intro hmem
        simp at hmem
      · split
        · decide
        · split
          · decide
          · split
            · decide
            · split
              · decide
              · split
                · decide
                · split
                  · next hlt =>
                    intro hmem
                    simp only [List.mem_cons, List.not_mem_nil, or_false] at hmem
                    rcases hmem with h | h | h | h | h | h
                    · exact absurd h (by decide)
                    · exact absurd h (by decide)
                    · exact absurd h (by decide)
                    · exact absurd h (by decide)
                    · exact hexDigit_ne_newline _ (by omega) h.symm
                    · exact hexDigit_ne_newline _ (by omega) h.symm
                  · rename_i h1 h2 h3 h4 h5 h6 h7 h8 h9
                    intro hmem
                    simp only [List.mem_cons, List.not_mem_nil, or_false] at hmem
                    exact h3 hmem.symm

theorem newline_not_mem_encodeJSONString (s : String) :
    '\n' ∉ encodeJSONString s := by
  unfold encodeJSONString
  intro h
  rcases List.mem_cons.mp h with h | h
  · exact absurd h (by decide)
  rcases List.mem_append.mp h with h | h
  · obtain ⟨c, _, hc⟩ := List.mem_flatMap.mp h
    exact newline_not_mem_escapeChar c hc
  · exact absurd h (by decide)

theorem newline_not_mem_encodeEmailRequestChars (r : EmailRequest) :
    '\n' ∉ encodeEmailRequestChars r := by
  unfold encodeEmailRequestChars
  intro h
  rcases List.mem_cons.mp h with h | h
  · exact absurd h (by decide)
  rcases List.mem_append.mp h with h | h
  swap
  · exact absurd h (by decide)
  rcases List.mem_append.mp h with h | h
  swap
  · exact newline_not_mem_base64Chars r.Body h
  rcases List.mem_append.mp h with h | h
  swap
  · exact absurd h (by decide)
  rcases List.mem_append.mp h with h | h
  swap
  · exact newline_not_mem_encodeJSONString r.Subject h
  rcases List.mem_append.mp h with h | h
  swap
  · exact absurd h (by decide)
  rcases List.mem_append.mp h with h | h
  · exact absurd h (by decide)
  · exact newline_not_mem_encodeJSONString r.Recipient h

theorem encodeEmailRequestChars_getLast (r : EmailRequest) :
    (encodeEmailRequestChars r).getLast? = some (Char.ofNat 125) := by
  unfold encodeEmailRequestChars
  have h : Char.ofNat 123 :: ("\"recipient\":".data ++ encodeJSONString r.Recipient
      ++ ",\"subject\":".data ++ encodeJSONString r.Subject
      ++ ",\"body\":\"".data ++ base64Chars r.Body ++ ['"', Char.ofNat 125])
      = (Char.ofNat 123 :: ("\"recipient\":".data ++ encodeJSONString r.Recipient
        ++ ",\"subject\":".data ++ encodeJSONString r.Subject
        ++ ",\"body\":\"".data ++ base64Chars r.Body ++ ['"'])) ++ [Char.ofNat 125] := by
    simp
  rw [h, List.getLast?_concat]

/-- C1: for every delivery invocation with MaxRetries = N at least 1, the
Delivery Engine invokes the SMTP transport at most N times; every transport
invocation other than the final one in the trace returned an error, so the
next invocation happens only after a failure; and a successful invocation
is always the final one, after which the engine returns and no further
transport invocation occurs. -/
theorem processEmail_retry_discipline (send cancel : Int → Bool)
    (req : EmailRequest) (cfg : Config) (hN : 1 ≤ cfg.Server.MaxRetries) :
    (attemptsOf (processEmail send cancel req cfg).2).length ≤
        cfg.Server.MaxRetries.toNat
    ∧ (∀ j : Nat, ∀ hj : j + 1 < (attemptsOf (processEmail send cancel req cfg).2).length,
        ((attemptsOf (processEmail send cancel req cfg).2).get
          ⟨j, Nat.lt_of_succ_lt hj⟩).2 = false)
    ∧ (∀ j : Nat, ∀ hj : j < (attemptsOf (processEmail send cancel req cfg).2).length,
        ((attemptsOf (processEmail send cancel req cfg).2).get ⟨j, hj⟩).2 = true →
        j + 1 = (attemptsOf (processEmail send cancel req cfg).2).length) := by
  obtain ⟨m, hshape, hm, hfalse⟩ := attemptsOf_deliverEvents_shape send cancel
    cfg.Server.RetryDelay cfg.Server.MaxRetries 0
  simp only [zero_add] at hshape hfalse
  have htr : (processEmail send cancel req cfg).2 =
      deliverEvents send cancel cfg.Server.RetryDelay cfg.Server.MaxRetries 0 := rfl
  rw [htr]
  have hlen : (attemptsOf (deliverEvents send cancel cfg.Server.RetryDelay
      cfg.Server.MaxRetries 0)).length = m := by
    rw [hshape]; simp
  have hgetE : ∀ j : Nat, j < m →
      (attemptsOf (deliverEvents send cancel cfg.Server.RetryDelay
        cfg.Server.MaxRetries 0))[j]? = some ((j : Int), send (j : Int)) := by
    intro j hj
    rw [hshape]
    simp [List.getElem?_map, List.getElem?_range, hj]
  have hget : ∀ j : Nat, ∀ hj : j < (attemptsOf (deliverEvents send cancel
      cfg.Server.RetryDelay cfg.Server.MaxRetries 0)).length,
      (attemptsOf (deliverEvents send cancel cfg.Server.RetryDelay
        cfg.Server.MaxRetries 0)).get ⟨j, hj⟩ = ((j : Int), send (j : Int)) := by
    intro j hj
    have h1 := hgetE j (by omega)
    rw [List.getElem?_eq_getElem hj] at h1
    rw [List.get_eq_getElem]
    exact Option.some.inj h1
  refine ⟨?_, ?_, ?_⟩
  · rw [hlen]; omega
  · intro j hj
    rw [hget j (Nat.lt_of_succ_lt hj)]
    exact hfalse j (by omega)
  · intro j hj htrue
    by_contra hne
    have hv := hfalse j (by omega)
    rw [hget j hj] at htrue
    simp only at htrue
    simp [htrue] at hv

/-- C1 witness: a transport that fails once then succeeds, under the default
configuration with MaxRetries 3. -/
theorem processEmail_retry_discipline_witness :
    (attemptsOf (processEmail (fun i => decide (i = 1)) (fun _ => false)
      ⟨"a@b.com", "hi", []⟩ defaultConfig).2).length ≤
      defaultConfig.Server.MaxRetries.toNat :=
  (processEmail_retry_discipline (fun i => decide (i = 1)) (fun _ => false)
    ⟨"a@b.com", "hi", []⟩ defaultConfig (by decide)).1

/-- C2: between consecutive attempts k and k+1 the engine performed the full
RetryDelay wait, which sits immediately between the failed attempt k and
attempt k+1 in the event trace; if the cancellation context fires during a
wait, the cancellation is the final event of the trace, so no further
transport invocation and no further waiting occurs, and in particular
every transport invocation in the trace has index at most that of the
cancelled wait, so attempt k+1 never happens after cancellation. -/
theorem processEmail_wait_cancel (send cancel : Int → Bool)
    (req : EmailRequest) (cfg : Config) :
    (∀ k : Int, ∀ ok : Bool, 0 ≤ k →
        DeliverEvent.attempt (k + 1) ok ∈ (processEmail send cancel req cfg).2 →
        ∃ pre suf, (processEmail send cancel req cfg).2 =
          pre ++ DeliverEvent.attempt k false ::
            DeliverEvent.wait k cfg.Server.RetryDelay ::
            DeliverEvent.attempt (k + 1) ok :: suf)
    ∧ (∀ k : Int, DeliverEvent.cancelled k ∈ (processEmail send cancel req cfg).2 →
        ((processEmail send cancel req cfg).2).getLast? =
          some (DeliverEvent.cancelled k))
    ∧ (∀ k j : Int, ∀ ok : Bool,
        DeliverEvent.cancelled k ∈ (processEmail send cancel req cfg).2 →
        DeliverEvent.attempt j ok ∈ (processEmail send cancel req cfg).2 →
        j ≤ k) := by
  refine ⟨?_, ?_, ?_⟩
  · intro k ok hk hmem
    exact deliverEvents_attempt_succ_adjacent send cancel cfg.Server.RetryDelay
      cfg.Server.MaxRetries 0 k ok hk hmem
  · intro k hmem
    exact mem_deliverEvents_cancelled_last send cancel cfg.Server.RetryDelay
      cfg.Server.MaxRetries 0 k hmem
  · intro k j ok hc ha
    exact mem_deliverEvents_cancelled_attempt_le send cancel cfg.Server.RetryDelay
      cfg.Server.MaxRetries 0 k j ok hc ha

/-- C2 witness: a failing transport whose first inter-attempt wait is cut
short by cancellation; the cancellation is the last event. -/
theorem processEmail_wait_cancel_witness :
    ((processEmail (fun _ => false) (fun _ => true)
        ⟨"a@b.com", "hi", []⟩ defaultConfig).2).getLast? =
      some (DeliverEvent.cancelled 0) :=
  (processEmail_wait_cancel (fun _ => false) (fun _ => true)
    ⟨"a@b.com", "hi", []⟩ defaultConfig).2.1 0 (by
      rw [show (processEmail (fun _ => false) (fun _ => true)
          ⟨"a@b.com", "hi", []⟩ defaultConfig).2 =
          deliverEvents (fun _ => false) (fun _ => true)
            defaultConfig.Server.RetryDelay 3 0 from rfl,
        deliverEvents]
      simp)

/-- C3: whenever reloadConfig returns an error, whichever stage failed
(loading, missing file, validation inside Load, or logger
reinitialization), the active configuration value is exactly the previous
one and the signal loop keeps the server running with it; the loaded
configuration is installed only when loading found an existing valid file
and logger reinitialization succeeded. -/
theorem reloadConfig_failure_keeps_config (env : LoadEnv) (lok : Bool) (cfg : Config) :
    (∀ e, (reloadConfig env lok cfg).2 = .error e → (reloadConfig env lok cfg).1 = cfg)
    ∧ ((reloadConfig env lok cfg).2 = .ok () →
        lok = true ∧ ∃ nc, Load appName env = .ok (nc, true)
          ∧ validateConfig nc = none ∧ (reloadConfig env lok cfg).1 = nc)
    ∧ (∀ e, (reloadConfig env lok cfg).2 = .error e →
        handleSignal .sighup env lok cfg = (cfg, true)) := by
  rcases hL : Load appName env with le | ⟨nc, ex⟩
  · rw [reloadConfig_load_error env lok cfg le hL]
    refine ⟨fun e2 he2 => rfl, fun h2 => absurd h2 (by simp), fun e2 he2 => ?_⟩
    simp [handleSignal, reloadConfig_load_error env lok cfg le hL]
  · cases ex with
    | false =>
      rw [reloadConfig_not_exists env lok cfg nc hL]
      refine ⟨fun e2 he2 => rfl, fun h2 => absurd h2 (by simp), fun e2 he2 => ?_⟩
      simp [handleSignal, reloadConfig_not_exists env lok cfg nc hL]
    | true =>
      cases lok with
      | false =>
        rw [reloadConfig_logger_fail env cfg nc hL]
        refine ⟨fun e2 he2 => rfl, fun h2 => absurd h2 (by simp), fun e2 he2 => ?_⟩
        simp [handleSignal, reloadConfig_logger_fail env cfg nc hL]
      | true =>
        rw [reloadConfig_success env cfg nc hL]
        exact ⟨fun e2 he2 => absurd he2 (by simp),
          fun _ => ⟨rfl, nc, rfl, Load_ok_validated appName env nc true hL, rfl⟩,
          fun e2 he2 => absurd he2 (by simp)⟩

/-- C3 witness: a reload with no configuration file on disk fails and
leaves the default active configuration untouched. -/
theorem reloadConfig_failure_keeps_config_witness :
    (reloadConfig ⟨true, false, true, none⟩ true defaultConfig).1 = defaultConfig :=
  (reloadConfig_failure_keeps_config ⟨true, false, true, none⟩ true defaultConfig).1
    "configuration file not found" (by rfl)

/-- C4 counterexample: at a startup state whose configuration loads and
whose logger initializes but whose listener bind fails, main returns after
logging, so the process terminates with exit status 0; there is no
non-zero status with which it exits, refuting the claim that a bind
failure produces an immediate non-zero exit. -/
theorem bind_failure_zero_exit_counterexample :
    mainStartup env0 true false = StartupOutcome.exited 0
    ∧ ¬ ∃ n : Nat, n ≠ 0 ∧ mainStartup env0 true false = StartupOutcome.exited n := by
  have h : mainStartup env0 true false = StartupOutcome.exited 0 := by rfl
  refine ⟨h, ?_⟩
  rintro ⟨n, hn, he⟩
  rw [h] at he
  injection he with hc
  exact hn hc.symm

/-- C4 amended: if binding the listening socket fails at startup, after
configuration loading and logger initialization have succeeded, the
process exits immediately, but with exit status 0 rather than a non-zero
status, because main logs the bind error and returns normally. -/
theorem bind_failure_exit_code (env : LoadEnv) (lok : Bool)
    (hload : ∃ p, Load appName env = .ok p) (hlok : lok = true) :
    mainStartup env lok false = StartupOutcome.exited 0 := by
  obtain ⟨⟨nc, ex⟩, hp⟩ := hload
  subst hlok
  unfold mainStartup
  rw [hp]
  rfl

/-- C4 witness: the amended statement evaluated at the default-loadable
environment. -/
theorem bind_failure_exit_code_witness :
    mainStartup env0 true false = StartupOutcome.exited 0 :=
  bind_failure_exit_code env0 true ⟨(defaultsFor appName, false), by rfl⟩ rfl

/-- C5: evaluating the delivery loop against the shared configuration cell
that a completed reload overwrites between the first and second loop
iterations, a single delivery invocation observes the old configuration on
its first iteration and the reloaded configuration afterwards, two
distinct configuration values in one lifetime, contradicting the claim
that a delivery always sees one internally consistent snapshot: the source
reload writes through the same pointer the delivery reads. -/
theorem shared_config_race :
    deliverSharedObs (fun _ => false) (fun _ => false) sharedAfterReload 3 0 0
      = [defaultConfig, reloadedConfig, reloadedConfig]
    ∧ defaultConfig ≠ reloadedConfig :=
  ⟨rfl, by decide⟩

/-- C6: when the stream does not decode into an EmailRequest, the handler
logs the decode error, closes the connection, writes nothing back, and
makes zero transport invocations; and on every exit path, decode failure
or not, the connection ends closed with zero bytes written back. -/
theorem handleConnection_decode_failure (send cancel : Int → Bool) (cfg : Config) :
    handleConnection none send cancel cfg =
      { closed := true, bytesWritten := 0, transportCalls := 0
        decodeErrorLogged := true }
    ∧ (∀ decoded : Option EmailRequest,
        (handleConnection decoded send cancel cfg).closed = true
        ∧ (handleConnection decoded send cancel cfg).bytesWritten = 0) := by
  refine ⟨rfl, ?_⟩
  intro decoded
  cases decoded <;> exact ⟨rfl, rfl⟩

/-- C7: validation accepts a configuration only when the SMTP host, port,
sender address, auth user and auth password are non-empty, the internal
listen address is non-empty, and timeout, retry delay and retry count are
strictly positive; consequently every configuration Load returns has a
positive MaxRetries, a server that reached the running state has a
positive MaxRetries, and a reload never makes the active MaxRetries
non-positive, so the Delivery Engine never runs with MaxRetries at most 0. -/
theorem validateConfig_guards :
    (∀ c : Config, validateConfig c = none →
        c.SMTP.Host ≠ "" ∧ c.SMTP.Port ≠ "" ∧ c.SMTP.FromAddr ≠ ""
        ∧ c.SMTP.AuthUser ≠ "" ∧ c.SMTP.AuthPass ≠ ""
        ∧ c.Server.InternalAddr ≠ "" ∧ 0 < c.Server.Timeout
        ∧ 0 < c.Server.RetryDelay ∧ 0 < c.Server.MaxRetries)
    ∧ (∀ (name : String) (env : LoadEnv) (c : Config) (ex : Bool),
        Load name env = .ok (c, ex) → 0 < c.Server.MaxRetries)
    ∧ (∀ (env : LoadEnv) (lok bindOk : Bool) (c : Config),
        mainStartup env lok bindOk = .running c → 0 < c.Server.MaxRetries)
    ∧ (∀ (env : LoadEnv) (lok : Bool) (cfg : Config),
        0 < cfg.Server.MaxRetries →
        0 < (reloadConfig env lok cfg).1.Server.MaxRetries) := by
  have hval : ∀ c : Config, validateConfig c = none →
      c.SMTP.Host ≠ "" ∧ c.SMTP.Port ≠ "" ∧ c.SMTP.FromAddr ≠ ""
      ∧ c.SMTP.AuthUser ≠ "" ∧ c.SMTP.AuthPass ≠ ""
      ∧ c.Server.InternalAddr ≠ "" ∧ 0 < c.Server.Timeout
      ∧ 0 < c.Server.RetryDelay ∧ 0 < c.Server.MaxRetries := by
    intro c h
    unfold validateConfig at h
    split at h
    · exact absurd h (by simp)
    · split at h
      · exact absurd h (by simp)
      · split at h
        · exact absurd h (by simp)
        · next h1 h2 h3 =>
          push_neg at h1 h2
          exact ⟨h1.1, h1.2.1, h1.2.2.1, h1.2.2.2.1, h1.2.2.2.2,
            h2.1, by omega, by omega, by omega⟩
  have hload : ∀ (name : String) (env : LoadEnv) (c : Config) (ex : Bool),
      Load name env = .ok (c, ex) → 0 < c.Server.MaxRetries := by
    intro name env c ex h
    exact (hval c (Load_ok_validated name env c ex h)).2.2.2.2.2.2.2.2
  refine ⟨hval, hload, ?_, ?_⟩
  · intro env lok bindOk c h
    unfold mainStartup at h
    rcases hL : Load appName env with le | ⟨nc, ex⟩
    · rw [hL] at h
      exact absurd h (by simp)
    · rw [hL] at h
      cases lok with
      | false => exact absurd h (by simp)
      | true =>
        cases bindOk with
        | false => exact absurd h (by simp)
        | true =>
          simp at h
          subst h
          exact hload appName env nc ex hL
  · intro env lok cfg hcfg
    rcases hL : Load appName env with le | ⟨nc, ex⟩
    · rw [reloadConfig_load_error env lok cfg le hL]
      exact hcfg
    · cases ex with
      | false =>
        rw [reloadConfig_not_exists env lok cfg nc hL]
        exact hcfg
      | true =>
        cases lok with
        | false =>
          rw [reloadConfig_logger_fail env cfg nc hL]
          exact hcfg
        | true =>
          rw [reloadConfig_success env cfg nc hL]
          exact hload appName env nc true hL

/-- C7 witness: the default configuration passes validation and has a
positive retry count. -/
theorem validateConfig_guards_witness :
    0 < defaultConfig.Server.MaxRetries :=
  (validateConfig_guards.1 defaultConfig (by rfl)).2.2.2.2.2.2.2.2

/-- C8 counterexample: for a concrete validated form submission, the bytes
the HTTP form adapter writes are not one JSON-encoded EmailRequest
followed by a newline: they are the JSON object alone, whose final byte is
the closing brace (code 125), which is not the newline byte. -/
theorem submitf_missing_newline_counterexample :
    submitfSendToMHRSBytes (submitfRequest form0 defaultConfig)
        ≠ encodeEmailRequestChars (submitfRequest form0 defaultConfig) ++ ['\n']
    ∧ (submitfSendToMHRSBytes (submitfRequest form0 defaultConfig)).getLast?
        = some (Char.ofNat 125)
    ∧ ('\n' : Char) ≠ Char.ofNat 125 := by
  refine ⟨?_, encodeEmailRequestChars_getLast (submitfRequest form0 defaultConfig),
    by decide⟩
  intro h
  have hlen := congrArg List.length h
  simp only [submitfSendToMHRSBytes, List.length_append, List.length_cons,
    List.length_nil] at hlen
  omega

/-- C8 amended: each producer writes exactly one JSON-encoded EmailRequest
per connection; the sendmail-compatible CLI terminates it with exactly one
newline, which is the final byte and the only newline on the wire, while
the HTTP form adapter writes the JSON object with no newline at all. -/
theorem producer_wire_newlines (req : EmailRequest) :
    mhrcSendToMHRSBytes req = encodeEmailRequestChars req ++ ['\n']
    ∧ submitfSendToMHRSBytes req = encodeEmailRequestChars req
    ∧ (mhrcSendToMHRSBytes req).count '\n' = 1
    ∧ (mhrcSendToMHRSBytes req).getLast? = some '\n'
    ∧ (submitfSendToMHRSBytes req).count '\n' = 0 := by
  have h0 : (encodeEmailRequestChars req).count '\n' = 0 :=
    List.count_eq_zero.mpr (newline_not_mem_encodeEmailRequestChars req)
  refine ⟨rfl, rfl, ?_, ?_, h0⟩
  · show (encodeEmailRequestChars req ++ ['\n']).count '\n' = 1
    rw [List.count_append, h0]
    rfl
  · exact List.getLast?_concat _

/-- C9: with MaxRetries at least 1, the delivery loop always begins with a
transport invocation at attempt index 0, whatever the cancellation oracle
says, including a cancellation context that has already fired when the
delivery begins: cancellation is only consulted during the inter-attempt
wait, so at least one transport invocation is always made. -/
theorem processEmail_first_attempt_unconditional (send cancel : Int → Bool)
    (req : EmailRequest) (cfg : Config) (hN : 1 ≤ cfg.Server.MaxRetries) :
    ((processEmail send cancel req cfg).2).head? =
      some (DeliverEvent.attempt 0 (send 0))
    ∧ 1 ≤ (attemptsOf (processEmail send cancel req cfg).2).length := by
  obtain ⟨rest, hr⟩ := deliverEvents_head send cancel cfg.Server.RetryDelay
    cfg.Server.MaxRetries 0 (by omega)
  have htr : (processEmail send cancel req cfg).2 =
      deliverEvents send cancel cfg.Server.RetryDelay cfg.Server.MaxRetries 0 := rfl
  rw [htr, hr]
  exact ⟨rfl, by simp [attemptsOf_cons_attempt]⟩

/-- C9 witness: the cancellation oracle that reports the context as already
fired still sees a first transport invocation. -/
theorem processEmail_first_attempt_unconditional_witness :
    ((processEmail (fun _ => false) (fun _ => true)
        ⟨"c@d.org", "x", []⟩ defaultConfig).2).head? =
      some (DeliverEvent.attempt 0 false) :=
  (processEmail_first_attempt_unconditional (fun _ => false) (fun _ => true)
    ⟨"c@d.org", "x", []⟩ defaultConfig (by decide)).1

/-- C10: when the configuration file does not exist on disk, a reload
returns the missing-file error and keeps the active configuration
unchanged, while startup in the same situation succeeds with the built-in
defaults adjusted for the application name and proceeds to run; hence a
reload never substitutes defaults for a missing file. -/
theorem reload_missing_file_vs_startup (env : LoadEnv) (lok : Bool) (cfg : Config)
    (hm : env.mkdirOk = true) (hf : env.fileExists = false) :
    reloadConfig env lok cfg = (cfg, .error "configuration file not found")
    ∧ Load appName env = .ok (defaultsFor appName, false)
    ∧ mainStartup env true true = .running (defaultsFor appName) := by
  have hL : Load appName env = .ok (defaultsFor appName, false) :=
    Load_no_file appName env hm hf (by rfl)
  refine ⟨reloadConfig_not_exists env lok cfg (defaultsFor appName) hL, hL, ?_⟩
  unfold mainStartup
  rw [hL]
  rfl

/-- C10 witness: the missing-file environment keeps the default active
configuration through a failed reload. -/
theorem reload_missing_file_vs_startup_witness :
    reloadConfig ⟨true, false, true, none⟩ true defaultConfig =
      (defaultConfig, .error "configuration file not found") :=
  (reload_missing_file_vs_startup ⟨true, false, true, none⟩ true defaultConfig
    rfl rfl).1

end MailHubRelay
